import Mathlib

/-!
Verification of the resource-completion cache subsystem
(`googlecloudsdk/core/remote_completion.py`).

The embedding models the filesystem as a finite association map from path
strings to file records (content plus mtime) together with a directory
table mapping a directory path to the entry names `os.listdir` would
return.  The record's mtime doubles as its Expiry instant, exactly as in
the source (`os.utime(abs_path, (now, now+timeout))`).  Wall-clock time is
a `Nat` parameter `now`; a record is fresh iff `now < mtime`, mirroring
`os.path.getmtime(fpath) > time.time()`.

Python exceptions that escape a function are modelled with `Except Unit`;
exceptions the source catches are handled exactly where the corresponding
`except` clause sits.  Recursive cache traversal (`GetAllMatchesFromCache`)
receives a fuel parameter; fuel exhaustion is an `error`, so every `ok`
result corresponds to a real terminating run of the source.

The Python string primitives the source relies on (`str.split` with a
one-character separator, `str.join`, `str.replace`, `str.startswith`,
`str.endswith`, slicing off a suffix) are given structurally recursive
implementations over the character list of a `String`, so that every
definition evaluates inside the kernel.
-/

/-- Python `s.split(c)` for a one-character separator: accumulator holds
the current field reversed. -/
def splitCharAux (c : Char) : List Char → List Char → List String
  | [], acc => [⟨acc.reverse⟩]
  | a :: rest, acc =>
    if a = c then ⟨acc.reverse⟩ :: splitCharAux c rest []
    else splitCharAux c rest (a :: acc)

/-- Python `s.split(c)`: always at least one field; `''.split(c) == ['']`. -/
def splitChar (c : Char) (s : String) : List String :=
  splitCharAux c s.data []

/-- Python `sep.join(parts)`. -/
def joinSep (sep : String) : List String → String
  | [] => ""
  | [a] => a
  | a :: rest => a ++ sep ++ joinSep sep rest

/-- Python `s.startswith(pre)`. -/
def strStartsWith (s pre : String) : Bool :=
  pre.data.isPrefixOf s.data

/-- Python `s.endswith(suf)`. -/
def strEndsWith (s suf : String) : Bool :=
  suf.data.reverse.isPrefixOf s.data.reverse

/-- Python `s[:-n]` for `n ≤ len(s)`: drop the last `n` characters. -/
def strDropRight (s : String) (n : Nat) : String :=
  ⟨s.data.take (s.data.length - n)⟩

/-- One pass of Python `s.replace(pat, repl)` for a non-empty pattern:
scan left to right, replacing non-overlapping occurrences.  The fuel is
seeded with the string length (each step consumes at least one
character). -/
def replaceCharsAux (pat repl : List Char) : Nat → List Char → List Char
  | 0, l => l
  | _ + 1, [] => []
  | fuel + 1, a :: rest =>
    if pat ≠ [] ∧ pat.isPrefixOf (a :: rest) then
      repl ++ replaceCharsAux pat repl fuel ((a :: rest).drop pat.length)
    else a :: replaceCharsAux pat repl fuel rest

/-- Python `s.replace(pat, repl)` for a non-empty pattern. -/
def pyReplace (s pat repl : String) : String :=
  ⟨replaceCharsAux pat.data repl.data s.data.length s.data⟩

/-- One on-disk cache record: file content plus its mtime.  The mtime field
stores the record's Expiry instant (the source reuses the filesystem
timestamp for this). -/
structure FileData where
  content : String
  mtime : Nat
deriving Repr, DecidableEq

/-- The filesystem: files keyed by full path string, and a directory table
giving, for each directory path, the entry names `os.listdir` returns. -/
structure FS where
  files : List (String × FileData)
  dirs : List (String × List String)
deriving Repr, DecidableEq

/-- Look up a file (`os.path.isfile` / `open`).  The empty path is never a
file (`os.path.isfile('')` is `False`). -/
def FS.getFile (fs : FS) (p : String) : Option FileData :=
  if p = "" then none else (fs.files.find? (fun kv => kv.1 = p)).map (fun kv => kv.2)

/-- Directory existence test (`os.path.isdir`); the empty path is never a
directory. -/
def FS.isdir (fs : FS) (p : String) : Bool :=
  if p = "" then false else (fs.dirs.find? (fun kv => kv.1 = p)).isSome

/-- Entries of a directory (`os.listdir`). -/
def FS.listdir (fs : FS) (p : String) : List String :=
  ((fs.dirs.find? (fun kv => kv.1 = p)).map (fun kv => kv.2)).getD []

/-- Create or overwrite a file (`open(p, 'w')` followed by `write`). -/
def FS.setFile (fs : FS) (p : String) (d : FileData) : FS :=
  { fs with files := (p, d) :: fs.files.filter (fun kv => kv.1 ≠ p) }

/-- Model of `os.remove`. -/
def FS.removeFile (fs : FS) (p : String) : FS :=
  { fs with files := fs.files.filter (fun kv => kv.1 ≠ p) }

/-- Model of `os.utime(p, (atime, m))`: set the mtime, raising `OSError` when the
file does not exist. -/
def FS.utime (fs : FS) (p : String) (m : Nat) : Except Unit FS :=
  match fs.getFile p with
  | none => .error ()
  | some d => .ok (fs.setFile p { d with mtime := m })

/-- Model of `files.MakeDir(d)`: register a directory. -/
def FS.makeDir (fs : FS) (p : String) : FS :=
  { fs with dirs := (p, []) :: fs.dirs }

/-- Model of `os.path.join` on POSIX for the relative second components the source
produces. -/
def joinPath (d p : String) : String :=
  if d = "" then p else if strEndsWith d "/" then d ++ p else d ++ "/" ++ p

/-- Model of `os.path.dirname`. -/
def dirName (p : String) : String :=
  let parts := splitChar '/' p
  if parts.length ≤ 1 then "" else joinSep "/" parts.dropLast

/-- The `_RESOURCE_FLAGS` table. -/
def RESOURCE_FLAGS (k : String) : Option String :=
  if k = "compute.projects" then some " --project "
  else if k = "compute.regions" then some " --region "
  else if k = "compute.zones" then some " --zone "
  else if k = "sql.projects" then some " --project "
  else none

/-- The `RemoteCompletion._TIMEOUTS` table. -/
def TIMEOUTS (k : String) : Option Nat :=
  if k = "sql.instances" then some 600
  else if k = "compute.instances" then some 600
  else if k = "compute.regions" then some 36000
  else if k = "compute.zones" then some 36000
  else none

/-- The mutable state the cache code touches: the class-level counters
`CACHE_HITS` and `CACHE_TRIES`, and the instance attribute `self.flags`. -/
structure RCState where
  cacheHits : Int
  cacheTries : Int
  flags : String
deriving Repr, DecidableEq

/-- Model of `RemoteCompletion.CachePath`: strip the scheme, split on `/`, replace
the leaf segment with the sentinel `_names_`, and return the joined path
together with the original leaf name. -/
def CachePath (self_link : String) : String × String :=
  let ref := pyReplace self_link "https://" ""
  let lst := splitChar '/' ref
  let name := lst.getLastD ""
  (joinSep "/" (lst.dropLast ++ ["_names_"]), name)

/-- The body of the append loop in `GetAllMatchesFromCache`'s fresh-file
branch: the source appends `item + self.flags` for every item of the
newline-split data that passes the prefix test; expressed as
filter-then-map, which preserves the order. -/
def matchItems (pre data flags : String) : List String :=
  ((splitChar '\n' data).filter (fun item => pre == "" || strStartsWith item pre)).map
    (fun item => item ++ flags)

/-- Model of `RemoteCompletion.GetAllMatchesFromCache(prefix, fpath, options)`.

The wildcard branch enumerates `listdir(lst[0])` and recurses into the
fresh children, threading `options` and `self.flags`; a `regions/` head
additionally tries the sibling `global` file.  Exceptions the source does
not catch here — `items.index('completion_cache')` (`ValueError`),
out-of-range subscripts (`IndexError`) and the `_RESOURCE_FLAGS` lookup
(`KeyError`) — are `error` results.  Fuel bounds the recursion depth. -/
def getAllMatchesFromCache (fs : FS) (now : Nat) :
    Nat → RCState → String → String → Option (List String) →
    Except Unit (Option (List String) × RCState)
  | 0, _, _, _, _ => .error ()
  | fuel + 1, st, pre, fpath, options =>
    let lst := splitChar '*' fpath
    if 1 < lst.length then
      let lst0 := lst.headD ""
      let lst1 := (lst.drop 1).headD ""
      if fs.isdir lst0 = false then .ok (none, st)
      else
        let items := splitChar '/' lst0
        match items.findIdx? (fun s => s == "completion_cache") with
        | none => .error ()
        | some index =>
          match items[index + 2]?,
                (if 2 ≤ items.length then items[items.length - 2]? else none) with
          | some fam, some kind =>
            match RESOURCE_FLAGS (fam ++ "." ++ kind) with
            | none => .error ()
            | some flagname =>
              match (fs.listdir lst0).foldlM
                  (fun (acc : Option (List String) × RCState) name =>
                    let st1 := { acc.2 with flags := flagname ++ name }
                    let fpath1 := lst0 ++ name ++ lst1
                    match fs.getFile fpath1 with
                    | some d =>
                      if now < d.mtime then
                        getAllMatchesFromCache fs now fuel st1 pre fpath1 acc.1
                      else .ok (acc.1, st1)
                    | none => .ok (acc.1, st1))
                  (options, st) with
              | .error e => .error e
              | .ok (options2, st2) =>
                if strEndsWith lst0 "regions/" then
                  let fpath2 := strDropRight lst0 ("regions/".length) ++ "global" ++ lst1
                  match fs.getFile fpath2 with
                  | some d =>
                    if now < d.mtime then
                      getAllMatchesFromCache fs now fuel
                        { st2 with flags := " --global" } pre fpath2 options2
                    else .ok (options2, st2)
                  | none => .ok (options2, st2)
                else .ok (options2, st2)
          | _, _ => .error ()
    else
      if fpath = "" then .ok (none, st)
      else
        match fs.getFile fpath with
        | none => .ok (none, st)
        | some d =>
          if d.mtime ≤ now then .ok (none, st)
          else
            .ok (some (options.getD [] ++ matchItems pre d.content st.flags),
                 { st with cacheHits := st.cacheHits + 1, flags := "" })
termination_by structural fuel => fuel

/-- Model of `RemoteCompletion.GetFromCache(self_link, prefix)`: bump `CACHE_TRIES`,
derive the cache path, delegate to the recursive reader with no
accumulated options. -/
def getFromCache (fs : FS) (now fuel : Nat) (cacheDir : String) (st : RCState)
    (self_link pre : String) : Except Unit (Option (List String) × RCState) :=
  let st1 := { st with cacheTries := st.cacheTries + 1 }
  let path := (CachePath self_link).1
  let fpath := joinPath cacheDir path
  getAllMatchesFromCache fs now fuel st1 pre fpath none

/-- The list of fresh cache files the traversal of
`GetAllMatchesFromCache` actually parses, in traversal order; mirrors the
function's branch structure exactly (same fuel discipline). -/
def freshFiles (fs : FS) (now : Nat) : Nat → String → List String
  | 0, _ => []
  | fuel + 1, fpath =>
    let lst := splitChar '*' fpath
    if 1 < lst.length then
      let lst0 := lst.headD ""
      let lst1 := (lst.drop 1).headD ""
      if fs.isdir lst0 = false then []
      else
        ((fs.listdir lst0).map (fun name =>
          let f := lst0 ++ name ++ lst1
          match fs.getFile f with
          | some d => if now < d.mtime then freshFiles fs now fuel f else []
          | none => [])).flatten
        ++ (if strEndsWith lst0 "regions/" then
              let f := strDropRight lst0 ("regions/".length) ++ "global" ++ lst1
              match fs.getFile f with
              | some d => if now < d.mtime then freshFiles fs now fuel f else []
              | none => []
            else [])
    else
      if fpath = "" then []
      else
        match fs.getFile fpath with
        | none => []
        | some d => if d.mtime ≤ now then [] else [fpath]
termination_by structural fuel => fuel

/-- Names that match the prefix inside the fresh files of a traversal. -/
def matchedFromFresh (fs : FS) (now : Nat) (fuel : Nat) (pre fpath : String) :
    List String :=
  ((freshFiles fs now fuel fpath).map (fun f =>
    match fs.getFile f with
    | some d => (splitChar '\n' d.content).filter
        (fun item => pre == "" || strStartsWith item pre)
    | none => [])).flatten

/-- Insert a leaf name into the `paths` grouping dictionary of
`StoreInCache`, preserving first-seen key order. -/
def addToGroup (groups : List (String × List String)) (path name : String) :
    List (String × List String) :=
  match groups with
  | [] => [(path, [name])]
  | (p, ns) :: rest =>
    if p = path then (p, ns ++ [name]) :: rest
    else (p, ns) :: addToGroup rest path name

/-- The grouping loop of `StoreInCache`: determine the collection from the
first identity (parsed reference when `parseColl` succeeds, otherwise the
positional heuristic `lst[3] + '.' + lst[-2]`, whose `IndexError` on short
identities escapes the function) and group leaf names by cache path.
Python's falsy test `if not collection` treats the empty string like
`None`, so both are represented by `""`. -/
def storeCollect (parseColl : String → Option String) :
    List String → String → List (String × List String) →
    Except Unit (String × List (String × List String))
  | [], coll, groups => .ok (coll, groups)
  | ref :: rest, coll, groups =>
    match (if coll = "" then
             match parseColl ref with
             | some c => Except.ok c
             | none =>
               let lst := splitChar '/' ref
               if 4 ≤ lst.length then
                 Except.ok (lst.getD 3 "" ++ "." ++ lst.getD (lst.length - 2) "")
               else Except.error ()
           else Except.ok coll) with
    | .error e => .error e
    | .ok coll1 =>
      let pn := CachePath ref
      storeCollect parseColl rest coll1 (addToGroup groups pn.1 pn.2)

/-- The write loop of `StoreInCache`: for each group, create the record
only when the parent directory does not yet exist, then stamp the Expiry
with `os.utime(abs_path, (now, now+timeout))`; any exception (here: the
`utime` of a missing file) aborts the remaining groups, keeping the writes
already made — the source's `except Exception: return`. -/
def storeWrite (now : Nat) (cacheDir coll : String) :
    List (String × List String) → FS → FS
  | [], fs => fs
  | (path, names) :: rest, fs =>
    let absPath := joinPath cacheDir path
    let dn := dirName absPath
    let fs1 :=
      if fs.isdir dn then fs
      else (fs.makeDir dn).setFile absPath
             { content := joinSep "\n" names, mtime := now }
    let timeout := (TIMEOUTS coll).getD 300
    match fs1.utime absPath (now + timeout) with
    | .ok fs2 => storeWrite now cacheDir coll rest fs2
    | .error _ => fs1

/-- Model of `RemoteCompletion.StoreInCache(self_links)`. -/
def storeInCache (fs : FS) (now : Nat) (parseColl : String → Option String)
    (cacheDir : String) (self_links : List String) : Except Unit FS :=
  match storeCollect parseColl self_links "" [] with
  | .error e => .error e
  | .ok (coll, groups) =>
    if coll = "" then .ok fs
    else .ok (storeWrite now cacheDir coll groups fs)

/-- Model of `RemoteCompletion.AddToCache(self_link, delete)`: incrementally mutate
the record.  `os.path.getmtime` on a missing file raises `OSError`, caught
by the source (no-op on delete, `StoreInCache([self_link])` on add);
`options.remove(name)` raises `ValueError` when the name is absent, caught
(return).  After rewriting, `os.utime(abs_path, (time.time(), mtime))`
restores the saved mtime, so the Expiry is preserved. -/
def addToCache (fs : FS) (now : Nat) (parseColl : String → Option String)
    (cacheDir : String) (self_link : String) (delete : Bool) : Except Unit FS :=
  let pn := CachePath self_link
  let absPath := joinPath cacheDir pn.1
  let name := pn.2
  match fs.getFile absPath with
  | none =>
    if delete then .ok fs
    else storeInCache fs now parseColl cacheDir [self_link]
  | some d =>
    let options := splitChar '\n' d.content
    if delete then
      if options.contains name then
        let options1 := options.erase name
        if options1.isEmpty then .ok (fs.removeFile absPath)
        else
          (fs.setFile absPath
            { content := joinSep "\n" options1, mtime := now }).utime
            absPath d.mtime
      else .ok fs
    else
      let options1 := options ++ [name]
      (fs.setFile absPath
        { content := joinSep "\n" options1, mtime := now }).utime
        absPath d.mtime

/-- Model of `RemoteCompletion.DeleteFromCache(self_link)`. -/
def deleteFromCache (fs : FS) (now : Nat) (parseColl : String → Option String)
    (cacheDir : String) (self_link : String) : Except Unit FS :=
  addToCache fs now parseColl cacheDir self_link true

/-- Results of the external collaborators inside `RemoteCompleter`'s miss
branch: the self links obtained from the fetched items and the
prefix-filtered names computed from them (lines 417-438 of the source);
both come from the Lister/Resolver, which are outside the core. -/
structure FetchEnv where
  links : List String
  names : List String
deriving Repr, DecidableEq

/-- The cache-orchestration part of `RemoteCompleter` (source lines
408-446): compute `resource_missing` from the wildcard split of the
resource link, read the cache, and on a miss store the fetched identities;
when the template still held a wildcard, re-read the cache, decrementing
`CACHE_HITS` only when the (truthy) re-read produced a non-empty list. -/
def remoteCompleterCore (fs : FS) (now fuel : Nat)
    (parseColl : String → Option String) (cacheDir : String) (env : FetchEnv)
    (resource_link pre : String) (st : RCState) :
    Except Unit (List String × FS × RCState) := do
  let resource_missing := 1 < (splitChar '*' resource_link).length
  let (options, st) ← getFromCache fs now fuel cacheDir st resource_link pre
  match options with
  | some opts => pure (opts, fs, st)
  | none =>
    let options := env.names
    if env.links.isEmpty then pure (options, fs, st)
    else
      let fs2 ← storeInCache fs now parseColl cacheDir env.links
      if resource_missing then
        let (options2, st2) ← getFromCache fs2 now fuel cacheDir st resource_link pre
        match options2 with
        | some (o :: os) =>
          pure (o :: os, fs2, { st2 with cacheHits := st2.cacheHits - 1 })
        | _ => pure ([], fs2, st2)
      else pure (options, fs2, st)

/-- State of a `CompletionProgressTracker` and its ticker thread.  The
timeout budget is kept in tenths of a second (the loop sleeps in 0.1 s
steps), `out` records the writes to the tracker's output stream, and
`killed` records whether `os.kill(0, 15)` fired. -/
structure TrackerState where
  timeout : Int
  ticks : Nat
  done : Bool
  killed : Bool
  out : List String
deriving Repr, DecidableEq

/-- The `CompletionProgressTracker.SPIN_MARKS` table. -/
def SPIN_MARKS : List String := ["|", "/", "-", "\\"]

/-- One wake of the `Ticker` loop: check the budget (kill on a negative
budget), otherwise sleep 0.1 s, decrement the budget, and run `Tick`,
which under the lock spins the indicator unless `_done` is set and returns
`_done`; the returned Bool is the loop's exit condition. -/
def tickerIter (s : TrackerState) : TrackerState × Bool :=
  if s.timeout < 0 then
    ({ s with killed := true, out := s.out ++ ["?\x08"] }, false)
  else
    let s1 := { s with timeout := s.timeout - 1 }
    if s1.done then (s1, true)
    else
      let t := s1.ticks + 1
      ({ s1 with
          ticks := t,
          out := s1.out ++ [(SPIN_MARKS.getD (t % SPIN_MARKS.length) "") ++ "\x08"] },
       false)

/-- Model of `CompletionProgressTracker.__exit__`: under the lock, blank the
indicator and set `_done`. -/
def exitTracker (s : TrackerState) : TrackerState :=
  { s with done := true, out := s.out ++ [" \x08"] }

/-- The initial `time.sleep(.2); self.timeout -= .2` of the ticker
thread. -/
def tickerStart (s : TrackerState) : TrackerState :=
  { s with timeout := s.timeout - 2 }

theorem FS.getFile_ne_empty {fs : FS} {p : String} {d : FileData}
    (h : fs.getFile p = some d) : p ≠ "" := by
  intro hp
  rw [hp] at h
  simp [FS.getFile] at h

theorem FS.getFile_setFile_self (fs : FS) {p : String} (d : FileData)
    (h : p ≠ "") : (fs.setFile p d).getFile p = some d := by
  simp [FS.getFile, FS.setFile, h, List.find?]

theorem FS.utime_of_getFile {fs : FS} {p : String} {d : FileData} (m : Nat)
    (h : fs.getFile p = some d) :
    fs.utime p m = .ok (fs.setFile p ⟨d.content, m⟩) := by
  simp [FS.utime, h]

theorem FS.setFile_setFile (fs : FS) (p : String) (a b : FileData) :
    (fs.setFile p a).setFile p b = fs.setFile p b := by
  simp [FS.setFile, List.filter_filter]

theorem FS.getFile_removeFile_self (fs : FS) (p : String) :
    (fs.removeFile p).getFile p = none := by
  by_cases hp : p = ""
  · simp [FS.getFile, hp]
  · simp only [FS.getFile, FS.removeFile, hp, if_false]
    rw [List.find?_eq_none.mpr]
    · rfl
    · intro kv hkv
      have := (List.mem_filter.mp hkv).2
      simpa using this

/-- C3: a guarded operation that completes (transitions the tracker to Done)
while the timeout budget is still non-negative makes the ticking loop exit on
its very next wake — returning with no write to the output stream, no tick,
and no process kill — and the Done state is one-way: neither a ticker wake
nor the release path ever clears it. -/
theorem watchdog_done_clean_exit (s : TrackerState) (hd : s.done = true)
    (ht : 0 ≤ s.timeout) :
    tickerIter s = ({ s with timeout := s.timeout - 1 }, true) ∧
    (tickerIter s).1.killed = s.killed ∧
    (tickerIter s).1.out = s.out ∧
    (tickerIter s).1.ticks = s.ticks ∧
    (∀ t : TrackerState, t.done = true → (tickerIter t).1.done = true) ∧
    (∀ t : TrackerState, (exitTracker t).done = true) := by
  have h1 : ¬ s.timeout < 0 := not_lt.mpr ht
  have hmain : tickerIter s = ({ s with timeout := s.timeout - 1 }, true) := by
    simp [tickerIter, h1, hd]
  refine ⟨hmain, by rw [hmain], by rw [hmain], by rw [hmain], ?_, ?_⟩
  · intro t htd
    by_cases h2 : t.timeout < 0
    · simp [tickerIter, h2, htd]
    · simp [tickerIter, h2, htd]
  · intro t
    simp [exitTracker]

/-- Witness for C3 at a concrete tracker state. -/
theorem watchdog_done_clean_exit_witness :
    tickerIter ⟨5, 2, true, false, [" \x08"]⟩ = (⟨4, 2, true, false, [" \x08"]⟩, true) :=
  (watchdog_done_clean_exit ⟨5, 2, true, false, [" \x08"]⟩ rfl (by decide)).1

/-- C7: deleting the last remaining name of a record removes the backing file
entirely and a subsequent Read for that key returns absent; deleting when the
backing file is absent is a no-op. -/
theorem mutate_remove_last_deletes (fs fs2 : FS) (now m : Nat)
    (parseColl : String → Option String) (cacheDir link link2 pre : String)
    (st : RCState) (d : FileData)
    (h1 : fs.getFile (joinPath cacheDir (CachePath link).1) = some d)
    (h2 : splitChar '\n' d.content = [(CachePath link).2])
    (h3 : (splitChar '*' (joinPath cacheDir (CachePath link).1)).length ≤ 1)
    (h4 : fs2.getFile (joinPath cacheDir (CachePath link2).1) = none) :
    addToCache fs now parseColl cacheDir link true =
      .ok (fs.removeFile (joinPath cacheDir (CachePath link).1)) ∧
    getFromCache (fs.removeFile (joinPath cacheDir (CachePath link).1)) now (m + 1)
        cacheDir st link pre =
      .ok (none, { st with cacheTries := st.cacheTries + 1 }) ∧
    addToCache fs2 now parseColl cacheDir link2 true = .ok fs2 := by
  refine ⟨?_, ?_, ?_⟩
  · simp [addToCache, h1, h2]
  · have hlen : ¬ 1 < (splitChar '*' (joinPath cacheDir (CachePath link).1)).length := by
      omega
    simp only [getFromCache, getAllMatchesFromCache, hlen, if_false]
    by_cases h5 : joinPath cacheDir (CachePath link).1 = ""
    · simp [h5]
    · simp [h5, FS.getFile_removeFile_self]
  · simp [addToCache, h4]

/-- Witness for C7 at concrete inputs. -/
theorem mutate_remove_last_deletes_witness :
    addToCache ⟨[("ns/p/_names_", ⟨"leaf", 9⟩)], []⟩ 5 (fun _ => none) "" "ns/p/leaf" true =
      .ok (FS.removeFile ⟨[("ns/p/_names_", ⟨"leaf", 9⟩)], []⟩ (joinPath "" (CachePath "ns/p/leaf").1)) ∧
    getFromCache (FS.removeFile ⟨[("ns/p/_names_", ⟨"leaf", 9⟩)], []⟩
        (joinPath "" (CachePath "ns/p/leaf").1)) 5 1 "" ⟨0, 0, ""⟩ "ns/p/leaf" "" =
      .ok (none, ⟨0, 1, ""⟩) ∧
    addToCache (⟨[], []⟩ : FS) 5 (fun _ => none) "" "ns/p/leaf" true = .ok ⟨[], []⟩ := by
  have h := mutate_remove_last_deletes ⟨[("ns/p/_names_", ⟨"leaf", 9⟩)], []⟩ ⟨[], []⟩ 5 0
    (fun _ => none) "" "ns/p/leaf" "ns/p/leaf" "" ⟨0, 0, ""⟩ ⟨"leaf", 9⟩
    (by rfl) (by rfl) (by decide) (by rfl)
  exact h

/-- C8: adding a name to an existing record preserves the record's Expiry —
the mtime saved before the rewrite is restored by
`os.utime(abs_path, (time.time(), mtime))` — while the stored name list gains
the identity's leaf name. -/
theorem mutate_add_preserves_expiry (fs : FS) (now : Nat)
    (parseColl : String → Option String) (cacheDir link : String) (d : FileData)
    (h1 : fs.getFile (joinPath cacheDir (CachePath link).1) = some d) :
    addToCache fs now parseColl cacheDir link false =
      .ok (fs.setFile (joinPath cacheDir (CachePath link).1)
        ⟨joinSep "\n" (splitChar '\n' d.content ++ [(CachePath link).2]), d.mtime⟩) := by
  have hne : joinPath cacheDir (CachePath link).1 ≠ "" := FS.getFile_ne_empty h1
  simp only [addToCache, h1, Bool.false_eq_true, if_false]
  rw [FS.utime_of_getFile d.mtime (FS.getFile_setFile_self fs _ hne)]
  rw [FS.setFile_setFile]

/-- Witness for C8 at concrete inputs. -/
theorem mutate_add_preserves_expiry_witness :
    addToCache ⟨[("ns/p/_names_", ⟨"aaa\nbbb", 44⟩)], []⟩ 7 (fun _ => none) "" "ns/p/ccc" false =
      .ok (FS.setFile ⟨[("ns/p/_names_", ⟨"aaa\nbbb", 44⟩)], []⟩
        (joinPath "" (CachePath "ns/p/ccc").1)
        ⟨joinSep "\n" (splitChar '\n' "aaa\nbbb" ++ [(CachePath "ns/p/ccc").2]), 44⟩) :=
  mutate_add_preserves_expiry ⟨[("ns/p/_names_", ⟨"aaa\nbbb", 44⟩)], []⟩ 7
    (fun _ => none) "" "ns/p/ccc" ⟨"aaa\nbbb", 44⟩ (by rfl)

/-- C10: adding a leaf name that the record already contains appends it again
without a membership check, so the stored record (a list, not a set) ends up
with a duplicate entry. -/
theorem mutate_add_no_dedup (fs : FS) (now : Nat)
    (parseColl : String → Option String) (cacheDir link : String) (d : FileData)
    (h1 : fs.getFile (joinPath cacheDir (CachePath link).1) = some d)
    (h2 : (CachePath link).2 ∈ splitChar '\n' d.content) :
    addToCache fs now parseColl cacheDir link false =
      .ok (fs.setFile (joinPath cacheDir (CachePath link).1)
        ⟨joinSep "\n" (splitChar '\n' d.content ++ [(CachePath link).2]), d.mtime⟩) ∧
    2 ≤ (splitChar '\n' d.content ++ [(CachePath link).2]).count (CachePath link).2 := by
  constructor
  · have hne : joinPath cacheDir (CachePath link).1 ≠ "" := FS.getFile_ne_empty h1
    simp only [addToCache, h1, Bool.false_eq_true, if_false]
    rw [FS.utime_of_getFile d.mtime (FS.getFile_setFile_self fs _ hne)]
    rw [FS.setFile_setFile]
  · rw [List.count_append]
    have hpos : 0 < (splitChar '\n' d.content).count (CachePath link).2 :=
      List.count_pos_iff.mpr h2
    have : (([(CachePath link).2]).count (CachePath link).2) = 1 := by simp
    omega

/-- Witness for C10 at concrete inputs: the leaf `aaa` is already present. -/
theorem mutate_add_no_dedup_witness :
    (addToCache ⟨[("ns/p/_names_", ⟨"aaa\nbbb", 44⟩)], []⟩ 7 (fun _ => none) "" "ns/p/aaa" false =
      .ok (FS.setFile ⟨[("ns/p/_names_", ⟨"aaa\nbbb", 44⟩)], []⟩
        (joinPath "" (CachePath "ns/p/aaa").1)
        ⟨joinSep "\n" (splitChar '\n' "aaa\nbbb" ++ [(CachePath "ns/p/aaa").2]), 44⟩)) ∧
    2 ≤ (splitChar '\n' ("aaa\nbbb" : String) ++ [(CachePath "ns/p/aaa").2]).count (CachePath "ns/p/aaa").2 := by
  have h := mutate_add_no_dedup ⟨[("ns/p/_names_", ⟨"aaa\nbbb", 44⟩)], []⟩ 7
    (fun _ => none) "" "ns/p/aaa" ⟨"aaa\nbbb", 44⟩ (by rfl) (by decide)
  exact h

/-- C1 counterexample: a concrete `StoreInCache` call on an identity whose
backing file already exists (content `aaa`, Expiry 5, parent directory
present).  The contents survive, but the Expiry is rewritten to
`now + timeout = 100 + 300` because the `os.utime` stamp sits outside the
file-creation guard — refuting the claim that the Expiry is unchanged. -/
theorem store_existing_resets_expiry_cex :
    FS.getFile ⟨[("ns/p/_names_", ⟨"aaa", 5⟩)], [("ns/p", [])]⟩ "ns/p/_names_" =
      some ⟨"aaa", 5⟩ ∧
    storeInCache ⟨[("ns/p/_names_", ⟨"aaa", 5⟩)], [("ns/p", [])]⟩ 100
      (fun _ => some "cc") "" ["ns/p/aaa"] =
      .ok ⟨[("ns/p/_names_", ⟨"aaa", 400⟩)], [("ns/p", [])]⟩ ∧
    (5 : Nat) ≠ 400 := by
  refine ⟨by rfl, by rfl, by decide⟩

/-- C1 amended: when the backing cache file already exists (its parent
directory being present), `StoreInCache` leaves the file's contents
unchanged but resets its Expiry to `now + TTL(collection)`. -/
theorem store_existing_keeps_contents (fs : FS) (now : Nat)
    (parseColl : String → Option String) (cacheDir link coll : String)
    (d : FileData)
    (hpc : parseColl link = some coll) (hcoll : coll ≠ "")
    (h1 : fs.getFile (joinPath cacheDir (CachePath link).1) = some d)
    (hdir : fs.isdir (dirName (joinPath cacheDir (CachePath link).1)) = true) :
    storeInCache fs now parseColl cacheDir [link] =
      .ok (fs.setFile (joinPath cacheDir (CachePath link).1)
        ⟨d.content, now + (TIMEOUTS coll).getD 300⟩) := by
  have hcol : storeCollect parseColl [link] "" [] =
      .ok (coll, [((CachePath link).1, [(CachePath link).2])]) := by
    simp [storeCollect, hpc, addToGroup]
  simp only [storeInCache, hcol]
  rw [if_neg hcoll]
  simp [storeWrite, hdir, FS.utime_of_getFile (now + (TIMEOUTS coll).getD 300) h1]

/-- Witness for the amended C1 at concrete inputs. -/
theorem store_existing_keeps_contents_witness :
    storeInCache ⟨[("ns/p/_names_", ⟨"aaa", 5⟩)], [("ns/p", [])]⟩ 100
      (fun _ => some "compute.instances") "" ["ns/p/bbb"] =
      .ok (FS.setFile ⟨[("ns/p/_names_", ⟨"aaa", 5⟩)], [("ns/p", [])]⟩
        (joinPath "" (CachePath "ns/p/bbb").1)
        ⟨"aaa", 100 + (TIMEOUTS "compute.instances").getD 300⟩) :=
  store_existing_keeps_contents ⟨[("ns/p/_names_", ⟨"aaa", 5⟩)], [("ns/p", [])]⟩ 100
    (fun _ => some "compute.instances") "" "ns/p/bbb" "compute.instances"
    ⟨"aaa", 5⟩ (by rfl) (by decide) (by rfl) (by rfl)

theorem str_append_empty (s : String) : s ++ "" = s :=
  String.append_empty s

theorem TIMEOUTS_getD_pos (c : String) : 0 < (TIMEOUTS c).getD 300 := by
  unfold TIMEOUTS
  repeat' split
  all_goals simp

/-- With an empty prefix every parsed item passes the filter. -/
theorem matchItems_empty_pre (data flags : String) :
    matchItems "" data flags = (splitChar '\n' data).map (fun item => item ++ flags) := by
  simp [matchItems]

/-- C5 counterexample: a concrete identity whose backing file is absent but
whose parent directory already exists.  `StoreInCache` writes nothing (the
file creation sits inside the directory-existence guard, and the following
`utime` raises, swallowed by the catch-all), so the immediate `Read`
returns absent rather than a sequence containing the leaf name. -/
theorem store_roundtrip_cex :
    storeInCache ⟨[], [("ns/p", [])]⟩ 100 (fun _ => some "cc") "" ["ns/p/aaa"] =
      .ok ⟨[], [("ns/p", [])]⟩ ∧
    getFromCache ⟨[], [("ns/p", [])]⟩ 100 2 "" ⟨0, 0, ""⟩ "ns/p/aaa" "" =
      .ok (none, ⟨0, 1, ""⟩) := by
  exact ⟨by rfl, by rfl⟩

/-- C5 amended: when neither the backing file's parent directory (hence nor
the file) pre-exists and the identity is well formed — wildcard-free derived
path, newline-free leaf, determinable collection — `StoreAll([id])` followed
immediately by `Read(id, "")` returns a sequence containing id's leaf
name (still fresh, since every TTL is positive). -/
theorem store_roundtrip (fs : FS) (now m : Nat)
    (parseColl : String → Option String) (cacheDir link coll : String)
    (st : RCState)
    (hpc : parseColl link = some coll) (hcoll : coll ≠ "")
    (hdir : fs.isdir (dirName (joinPath cacheDir (CachePath link).1)) = false)
    (habs : joinPath cacheDir (CachePath link).1 ≠ "")
    (hsplit : (splitChar '*' (joinPath cacheDir (CachePath link).1)).length ≤ 1)
    (hsn : splitChar '\n' (joinSep "\n" [(CachePath link).2]) = [(CachePath link).2])
    (hfl : st.flags = "") :
    ∃ fs2, storeInCache fs now parseColl cacheDir [link] = .ok fs2 ∧
      ∃ l st2, getFromCache fs2 now (m + 1) cacheDir st link "" = .ok (some l, st2) ∧
        (CachePath link).2 ∈ l := by
  have hcol : storeCollect parseColl [link] "" [] =
      .ok (coll, [((CachePath link).1, [(CachePath link).2])]) := by
    simp [storeCollect, hpc, addToGroup]
  have hget1 : ((fs.makeDir (dirName (joinPath cacheDir (CachePath link).1))).setFile
      (joinPath cacheDir (CachePath link).1)
      ⟨joinSep "\n" [(CachePath link).2], now⟩).getFile
      (joinPath cacheDir (CachePath link).1) =
      some ⟨joinSep "\n" [(CachePath link).2], now⟩ :=
    FS.getFile_setFile_self _ _ habs
  have hwrite : storeWrite now cacheDir coll [((CachePath link).1, [(CachePath link).2])] fs =
      (fs.makeDir (dirName (joinPath cacheDir (CachePath link).1))).setFile
        (joinPath cacheDir (CachePath link).1)
        ⟨joinSep "\n" [(CachePath link).2], now + (TIMEOUTS coll).getD 300⟩ := by
    simp only [storeWrite]
    rw [if_neg (by simp [hdir])]
    rw [FS.utime_of_getFile (now + (TIMEOUTS coll).getD 300) hget1]
    simp only [storeWrite, FS.setFile_setFile]
  have hstore : storeInCache fs now parseColl cacheDir [link] =
      .ok ((fs.makeDir (dirName (joinPath cacheDir (CachePath link).1))).setFile
        (joinPath cacheDir (CachePath link).1)
        ⟨joinSep "\n" [(CachePath link).2], now + (TIMEOUTS coll).getD 300⟩) := by
    simp only [storeInCache, hcol]
    rw [if_neg hcoll, hwrite]
  have hget2 : ((fs.makeDir (dirName (joinPath cacheDir (CachePath link).1))).setFile
      (joinPath cacheDir (CachePath link).1)
      ⟨joinSep "\n" [(CachePath link).2], now + (TIMEOUTS coll).getD 300⟩).getFile
      (joinPath cacheDir (CachePath link).1) =
      some ⟨joinSep "\n" [(CachePath link).2], now + (TIMEOUTS coll).getD 300⟩ :=
    FS.getFile_setFile_self _ _ habs
  have hlen : ¬ 1 < (splitChar '*' (joinPath cacheDir (CachePath link).1)).length := by
    omega
  have hfresh : ¬ (now + (TIMEOUTS coll).getD 300 ≤ now) := by
    have := TIMEOUTS_getD_pos coll
    omega
  have hread : getFromCache ((fs.makeDir (dirName (joinPath cacheDir (CachePath link).1))).setFile
      (joinPath cacheDir (CachePath link).1)
      ⟨joinSep "\n" [(CachePath link).2], now + (TIMEOUTS coll).getD 300⟩)
      now (m + 1) cacheDir st link "" =
      .ok (some [(CachePath link).2 ++ ""],
           ⟨st.cacheHits + 1, st.cacheTries + 1, ""⟩) := by
    simp only [getFromCache, getAllMatchesFromCache]
    rw [if_neg hlen, if_neg habs, hget2]
    simp only [if_neg hfresh, matchItems_empty_pre, hsn, hfl]
    simp
  exact ⟨_, hstore, [(CachePath link).2 ++ ""], _, hread, by simp [str_append_empty]⟩

/-- Witness for the amended C5 at concrete inputs. -/
theorem store_roundtrip_witness :
    ∃ fs2, storeInCache ⟨[], []⟩ 100 (fun _ => some "cc") "" ["ns/p/aaa"] = .ok fs2 ∧
      ∃ l st2, getFromCache fs2 100 2 "" ⟨0, 0, ""⟩ "ns/p/aaa" "" = .ok (some l, st2) ∧
        (CachePath "ns/p/aaa").2 ∈ l :=
  store_roundtrip ⟨[], []⟩ 100 1 (fun _ => some "cc") "" "ns/p/aaa" "cc" ⟨0, 0, ""⟩
    (by rfl) (by decide) (by rfl) (by decide) (by decide) (by rfl) (by rfl)

/-- C2 counterexample: a wildcard template whose initial read is absent and
whose fetched identity is stored, but whose re-read yields an *empty*
sequence (the stored name `aaa` does not match the prefix `q`).  The re-read
is a cache hit (`CACHE_HITS` went from 0 to 1), yet the source decrements
only under `if options:`, which an empty list fails — so the artificial hit
is not compensated and the final counter is 1, not 0 as the claim
requires. -/
theorem completer_recheck_no_decrement_cex :
    getFromCache ⟨[], [("completion_cache/h/compute/zones/", ["z1"])]⟩ 100 3 ""
      ⟨0, 0, ""⟩ "https://completion_cache/h/compute/zones/*/iname" "q" =
      .ok (none, ⟨0, 1, " --zone z1"⟩) ∧
    remoteCompleterCore ⟨[], [("completion_cache/h/compute/zones/", ["z1"])]⟩ 100 3
      (fun _ => some "cc") ""
      ⟨["https://completion_cache/h/compute/zones/z1/aaa"], []⟩
      "https://completion_cache/h/compute/zones/*/iname" "q" ⟨0, 0, ""⟩ =
      .ok ([],
        ⟨[("completion_cache/h/compute/zones/z1/_names_", ⟨"aaa", 400⟩)],
         [("completion_cache/h/compute/zones/z1", []),
          ("completion_cache/h/compute/zones/", ["z1"])]⟩,
        ⟨1, 2, ""⟩) ∧
    (1 : Int) ≠ 0 :=
  ⟨rfl, rfl, by decide⟩

/-- C2 amended: on a wildcard template whose initial read is absent, after
storing the fetched identities the Orchestrator re-invokes the cache read;
it decrements CacheHits by 1 and returns the re-read sequence only when that
sequence is non-empty, and returns an empty sequence — without the
compensating decrement — when the re-read yields absent or an empty
sequence. -/
theorem completer_wildcard_recheck (fs fs2 : FS) (now fuel : Nat)
    (parseColl : String → Option String) (cacheDir : String) (env : FetchEnv)
    (resource_link pre : String) (st st1 st2 : RCState)
    (r2 : Option (List String))
    (hw : 1 < (splitChar '*' resource_link).length)
    (h1 : getFromCache fs now fuel cacheDir st resource_link pre = .ok (none, st1))
    (hl : env.links ≠ [])
    (h2 : storeInCache fs now parseColl cacheDir env.links = .ok fs2)
    (h3 : getFromCache fs2 now fuel cacheDir st1 resource_link pre = .ok (r2, st2)) :
    remoteCompleterCore fs now fuel parseColl cacheDir env resource_link pre st =
      .ok (match r2 with
        | some (o :: os) => (o :: os, fs2, { st2 with cacheHits := st2.cacheHits - 1 })
        | some [] => ([], fs2, st2)
        | none => ([], fs2, st2)) := by
  have hle : env.links.isEmpty = false := by
    cases henv : env.links with
    | nil => exact absurd henv hl
    | cons a as => rfl
  simp only [remoteCompleterCore, bind, Except.bind, h1, h2, h3, hle,
    Bool.false_eq_true, if_false, if_pos hw]
  cases r2 with
  | none => rfl
  | some l =>
    cases l with
    | nil => rfl
    | cons o os => rfl

/-- Witness for the amended C2 at concrete inputs (non-empty re-read: the
decrement fires and the annotated name list is returned). -/
theorem completer_wildcard_recheck_witness :
    remoteCompleterCore ⟨[], [("completion_cache/h/compute/zones/", ["z1"])]⟩ 100 3
      (fun _ => some "cc") ""
      ⟨["https://completion_cache/h/compute/zones/z1/aaa"], []⟩
      "https://completion_cache/h/compute/zones/*/iname" "" ⟨0, 0, ""⟩ =
      .ok (["aaa --zone z1"],
        ⟨[("completion_cache/h/compute/zones/z1/_names_", ⟨"aaa", 400⟩)],
         [("completion_cache/h/compute/zones/z1", []),
          ("completion_cache/h/compute/zones/", ["z1"])]⟩,
        ⟨0, 2, ""⟩) :=
  completer_wildcard_recheck
    ⟨[], [("completion_cache/h/compute/zones/", ["z1"])]⟩
    ⟨[("completion_cache/h/compute/zones/z1/_names_", ⟨"aaa", 400⟩)],
     [("completion_cache/h/compute/zones/z1", []),
      ("completion_cache/h/compute/zones/", ["z1"])]⟩
    100 3 (fun _ => some "cc") ""
    ⟨["https://completion_cache/h/compute/zones/z1/aaa"], []⟩
    "https://completion_cache/h/compute/zones/*/iname" ""
    ⟨0, 0, ""⟩ ⟨0, 1, " --zone z1"⟩ ⟨1, 2, ""⟩
    (some ["aaa --zone z1"])
    (by decide) (by rfl) (by decide) (by rfl) (by rfl)

/-- Closed form of `GetAllMatchesFromCache` on a wildcard-free path. -/
theorem gam_base (fs : FS) (now fuel : Nat) (st : RCState)
    (pre fpath : String) (options : Option (List String))
    (h : (splitChar '*' fpath).length ≤ 1) :
    getAllMatchesFromCache fs now (fuel + 1) st pre fpath options =
      (if fpath = "" then .ok (none, st)
       else match fs.getFile fpath with
        | none => .ok (none, st)
        | some d =>
          if d.mtime ≤ now then .ok (none, st)
          else .ok (some (options.getD [] ++ matchItems pre d.content st.flags),
               { st with cacheHits := st.cacheHits + 1, flags := "" })) := by
  have h1 : ¬ 1 < (splitChar '*' fpath).length := by omega
  simp only [getAllMatchesFromCache, h1, if_false]

/-- Closed form of `freshFiles` on a wildcard-free path. -/
theorem freshFiles_base (fs : FS) (now fuel : Nat) (fpath : String)
    (h : (splitChar '*' fpath).length ≤ 1) :
    freshFiles fs now (fuel + 1) fpath =
      (if fpath = "" then []
       else match fs.getFile fpath with
        | none => []
        | some d => if d.mtime ≤ now then [] else [fpath]) := by
  have h1 : ¬ 1 < (splitChar '*' fpath).length := by omega
  simp only [freshFiles, h1, if_false]

/-- Per-wake hit accounting for the wildcard loop of
`GetAllMatchesFromCache`: on success the hit counter advances by the number
of fresh files of the enumerated branches and the try counter is
untouched. -/
theorem gamLoopCounts (fs : FS) (now n : Nat) (pre lst0 lst1 flagname : String)
    (ih : ∀ st pre2 fpath options res st',
      getAllMatchesFromCache fs now n st pre2 fpath options = .ok (res, st') →
      st'.cacheHits = st.cacheHits + ((freshFiles fs now n fpath).length : Int) ∧
      st'.cacheTries = st.cacheTries) :
    ∀ (names : List String) (options : Option (List String)) (st : RCState)
      (res : Option (List String)) (st' : RCState),
      (names.foldlM (fun (acc : Option (List String) × RCState) name =>
          let st1 := { acc.2 with flags := flagname ++ name }
          let fpath1 := lst0 ++ name ++ lst1
          match fs.getFile fpath1 with
          | some d =>
            if now < d.mtime then
              getAllMatchesFromCache fs now n st1 pre fpath1 acc.1
            else .ok (acc.1, st1)
          | none => .ok (acc.1, st1)) (options, st)) = .ok (res, st') →
      st'.cacheHits = st.cacheHits +
        (((names.map (fun name =>
            match fs.getFile (lst0 ++ name ++ lst1) with
            | some d =>
              if now < d.mtime then freshFiles fs now n (lst0 ++ name ++ lst1)
              else []
            | none => [])).flatten.length : Nat) : Int) ∧
      st'.cacheTries = st.cacheTries := by
  intro names
  induction names with
  | nil =>
    intro options st res st' h
    simp only [List.foldlM_nil, pure, Except.pure, Except.ok.injEq, Prod.mk.injEq] at h
    obtain ⟨h1, h2⟩ := h
    simp [h2.symm]
  | cons name rest ihr =>
    intro options st res st' h
    simp only [List.foldlM_cons] at h
    cases hgf : fs.getFile (lst0 ++ name ++ lst1) with
    | none =>
      simp only [hgf, bind, Except.bind] at h
      have := ihr options { st with flags := flagname ++ name } res st' h
      simp only [List.map_cons, List.flatten_cons, hgf] at *
      obtain ⟨ha, hb⟩ := this
      constructor
      · rw [ha]; simp
      · rw [hb]
    | some d =>
      by_cases hfr : now < d.mtime
      · simp only [hgf, if_pos hfr, bind, Except.bind] at h
        cases hrec : getAllMatchesFromCache fs now n
            { st with flags := flagname ++ name } pre (lst0 ++ name ++ lst1) options with
        | error e => rw [hrec] at h; simp at h
        | ok v =>
          rw [hrec] at h
          obtain ⟨o2, s2'⟩ := v
          have h1 := ih _ _ _ _ _ _ hrec
          have h2 := ihr o2 s2' res st' h
          simp only [List.map_cons, List.flatten_cons, hgf, if_pos hfr] at *
          obtain ⟨ha1, hb1⟩ := h1
          obtain ⟨ha2, hb2⟩ := h2
          constructor
          · rw [ha2, ha1, List.length_append]
            push_cast
            ring
          · rw [hb2, hb1]
      · simp only [hgf, if_neg hfr, bind, Except.bind] at h
        have := ihr options { st with flags := flagname ++ name } res st' h
        simp only [List.map_cons, List.flatten_cons, hgf, if_neg hfr] at *
        obtain ⟨ha, hb⟩ := this
        constructor
        · rw [ha]; simp
        · rw [hb]

/-- Hit/try accounting for `GetAllMatchesFromCache`: a successful call
advances `CACHE_HITS` by exactly the number of fresh files its traversal
parses and leaves `CACHE_TRIES` untouched. -/
theorem gamCounts (fs : FS) (now : Nat) :
    ∀ (fuel : Nat) (st : RCState) (pre fpath : String)
      (options res : Option (List String)) (st' : RCState),
      getAllMatchesFromCache fs now fuel st pre fpath options = .ok (res, st') →
      st'.cacheHits = st.cacheHits + ((freshFiles fs now fuel fpath).length : Int) ∧
      st'.cacheTries = st.cacheTries := by
  intro fuel
  induction fuel with
  | zero =>
    intro st pre fpath options res st' h
    simp [getAllMatchesFromCache] at h
  | succ n ih =>
    intro st pre fpath options res st' h
    by_cases hw : 1 < (splitChar '*' fpath).length
    · simp only [getAllMatchesFromCache, hw, if_true] at h
      simp only [freshFiles, hw, if_true]
      by_cases hd : fs.isdir ((splitChar '*' fpath).headD "") = false
      · rw [if_pos hd] at h
        rw [if_pos hd]
        simp only [Except.ok.injEq, Prod.mk.injEq] at h
        obtain ⟨h1, h2⟩ := h
        subst h2
        simp
      · rw [if_neg hd] at h
        rw [if_neg hd]
        cases hidx : (splitChar '/' ((splitChar '*' fpath).headD "")).findIdx?
            (fun s => s == "completion_cache") with
        | none =>
          simp only [hidx] at h
          exact Except.noConfusion h
        | some index =>
          simp only [hidx] at h
          cases hfam : (splitChar '/' ((splitChar '*' fpath).headD ""))[index + 2]? with
          | none =>
            simp only [hfam] at h
            exact Except.noConfusion h
          | some fam =>
            simp only [hfam] at h
            cases hknd : (if 2 ≤ (splitChar '/' ((splitChar '*' fpath).headD "")).length then
                (splitChar '/' ((splitChar '*' fpath).headD ""))[(splitChar '/'
                  ((splitChar '*' fpath).headD "")).length - 2]? else none) with
            | none =>
              simp only [hknd] at h
              exact Except.noConfusion h
            | some kind =>
              simp only [hknd] at h
              cases hfl2 : RESOURCE_FLAGS (fam ++ "." ++ kind) with
              | none =>
                simp only [hfl2] at h
                exact Except.noConfusion h
              | some flagname =>
                simp only [hfl2] at h
                split at h
                · simp at h
                · rename_i options2 st2 hloop
                  have hst2 := gamLoopCounts fs now n pre
                    ((splitChar '*' fpath).headD "")
                    (((splitChar '*' fpath).drop 1).headD "") flagname ih
                    (fs.listdir ((splitChar '*' fpath).headD "")) options st
                    options2 st2 hloop
                  obtain ⟨hst2h, hst2t⟩ := hst2
                  by_cases hreg : strEndsWith ((splitChar '*' fpath).headD "") "regions/" = true
                  · rw [if_pos hreg] at h
                    rw [if_pos hreg]
                    cases hgf2 : fs.getFile (strDropRight ((splitChar '*' fpath).headD "")
                        ("regions/".length) ++ "global" ++
                        (((splitChar '*' fpath).drop 1).headD "")) with
                    | none =>
                      simp only [hgf2] at h
                      simp only [Except.ok.injEq, Prod.mk.injEq] at h
                      obtain ⟨h1, h2⟩ := h
                      subst h2
                      simp only [hgf2]
                      refine ⟨?_, hst2t⟩
                      rw [hst2h]
                      simp
                    | some d2 =>
                      simp only [hgf2] at h
                      by_cases hfr2 : now < d2.mtime
                      · rw [if_pos hfr2] at h
                        have hrec := ih _ _ _ _ _ _ h
                        obtain ⟨hrh, hrt⟩ := hrec
                        have hrh2 : st'.cacheHits = st2.cacheHits +
                            ((freshFiles fs now n
                              (strDropRight ((splitChar '*' fpath).headD "")
                                ("regions/".length) ++ "global" ++
                                (((splitChar '*' fpath).drop 1).headD ""))).length : Int) := by
                          simpa using hrh
                        have hrt2 : st'.cacheTries = st2.cacheTries := by simpa using hrt
                        simp only [hgf2, if_pos hfr2]
                        constructor
                        · rw [hrh2, hst2h, List.length_append]
                          push_cast
                          ring
                        · rw [hrt2]
                          exact hst2t
                      · rw [if_neg hfr2] at h
                        simp only [Except.ok.injEq, Prod.mk.injEq] at h
                        obtain ⟨h1, h2⟩ := h
                        subst h2
                        simp only [hgf2, if_neg hfr2]
                        refine ⟨?_, hst2t⟩
                        rw [hst2h]
                        simp
                  · rw [if_neg hreg] at h
                    rw [if_neg hreg]
                    simp only [Except.ok.injEq, Prod.mk.injEq] at h
                    obtain ⟨h1, h2⟩ := h
                    subst h2
                    refine ⟨?_, hst2t⟩
                    rw [hst2h]
                    simp
    · have hb := gam_base fs now n st pre fpath options (by omega)
      rw [hb] at h
      have hfb := freshFiles_base fs now n fpath (by omega)
      rw [hfb]
      by_cases he : fpath = ""
      · rw [if_pos he] at h
        rw [if_pos he]
        simp only [Except.ok.injEq, Prod.mk.injEq] at h
        obtain ⟨h1, h2⟩ := h
        subst h2
        simp
      · rw [if_neg he] at h
        rw [if_neg he]
        cases hgf : fs.getFile fpath with
        | none =>
          simp only [hgf] at h
          simp only [Except.ok.injEq, Prod.mk.injEq] at h
          obtain ⟨h1, h2⟩ := h
          subst h2
          simp
        | some d =>
          simp only [hgf] at h
          by_cases hst : d.mtime ≤ now
          · rw [if_pos hst] at h
            simp only [Except.ok.injEq, Prod.mk.injEq] at h
            obtain ⟨h1, h2⟩ := h
            subst h2
            simp [hst]
          · rw [if_neg hst] at h
            simp only [Except.ok.injEq, Prod.mk.injEq] at h
            obtain ⟨h1, h2⟩ := h
            subst h2
            simp [hst]

/-- C9: every top-level `GetFromCache` call increments `CACHE_TRIES` by
exactly 1 regardless of wildcard fan-out, and increments `CACHE_HITS` by
exactly the number of individual fresh cache files parsed during the
call's traversal. -/
theorem read_counts (fs : FS) (now fuel : Nat) (cacheDir : String) (st : RCState)
    (link pre : String) (res : Option (List String)) (st' : RCState)
    (h : getFromCache fs now fuel cacheDir st link pre = .ok (res, st')) :
    st'.cacheTries = st.cacheTries + 1 ∧
    st'.cacheHits = st.cacheHits +
      ((freshFiles fs now fuel (joinPath cacheDir (CachePath link).1)).length : Int) := by
  simp only [getFromCache] at h
  have h2 := gamCounts fs now fuel { st with cacheTries := st.cacheTries + 1 } pre
    (joinPath cacheDir (CachePath link).1) none res st' h
  obtain ⟨h2a, h2b⟩ := h2
  constructor
  · simpa using h2b
  · simpa using h2a

/-- Witness for C9 at concrete inputs: a wildcard read over one fresh and
one stale branch parses exactly one fresh file. -/
theorem read_counts_witness :
    (⟨1, 1, ""⟩ : RCState).cacheTries = (⟨0, 0, ""⟩ : RCState).cacheTries + 1 ∧
    (⟨1, 1, ""⟩ : RCState).cacheHits = (⟨0, 0, ""⟩ : RCState).cacheHits +
      ((freshFiles ⟨[("completion_cache/h/compute/zones/z1/_names_", ⟨"aaa", 400⟩),
          ("completion_cache/h/compute/zones/z2/_names_", ⟨"bbb", 50⟩)],
         [("completion_cache/h/compute/zones/", ["z1", "z2"])]⟩ 100 3
        (joinPath "" (CachePath "https://completion_cache/h/compute/zones/*/iname").1)).length : Int) :=
  read_counts ⟨[("completion_cache/h/compute/zones/z1/_names_", ⟨"aaa", 400⟩),
      ("completion_cache/h/compute/zones/z2/_names_", ⟨"bbb", 50⟩)],
     [("completion_cache/h/compute/zones/", ["z1", "z2"])]⟩ 100 3 "" ⟨0, 0, ""⟩
    "https://completion_cache/h/compute/zones/*/iname" ""
    (some ["aaa --zone z1"]) ⟨1, 1, " --zone z2"⟩ (by rfl)

/-- A child branch's file under a wildcard head exists and is fresh. -/
def childFresh (fs : FS) (now : Nat) (lst0 lst1 name : String) : Bool :=
  match fs.getFile (lst0 ++ name ++ lst1) with
  | some d => decide (now < d.mtime)
  | none => false

/-- The names a child branch contributes to a wildcard read: when fresh, the
branch file's matching items annotated with this branch's flag; nothing
otherwise. -/
def branchContribution (fs : FS) (now : Nat) (pre flagname lst0 lst1 name : String) :
    List String :=
  match fs.getFile (lst0 ++ name ++ lst1) with
  | some d => if now < d.mtime then matchItems pre d.content (flagname ++ name) else []
  | none => []

/-- The matching (unannotated) items of a child branch's file. -/
def childMatched (fs : FS) (now : Nat) (pre lst0 lst1 name : String) : List String :=
  match fs.getFile (lst0 ++ name ++ lst1) with
  | some d => (splitChar '\n' d.content).filter
      (fun item => pre == "" || strStartsWith item pre)
  | none => []

/-- The `regions -> global` cross-link file path. -/
def globalPath (lst0 lst1 : String) : String :=
  strDropRight lst0 ("regions/".length) ++ "global" ++ lst1

/-- The cross-link branch applies and its file is fresh. -/
def globalFresh (fs : FS) (now : Nat) (lst0 lst1 : String) : Bool :=
  strEndsWith lst0 "regions/" &&
    (match fs.getFile (globalPath lst0 lst1) with
     | some d => decide (now < d.mtime)
     | none => false)

/-- The names the cross-link branch contributes, annotated `--global`. -/
def globalContribution (fs : FS) (now : Nat) (pre lst0 lst1 : String) : List String :=
  if globalFresh fs now lst0 lst1 then
    match fs.getFile (globalPath lst0 lst1) with
    | some d => matchItems pre d.content " --global"
    | none => []
  else []

/-- Spec-side description of a wildcard read: the merge, in directory order,
of the contributions of exactly the fresh child branches — each annotated
with its own flag — plus the `regions -> global` cross-link branch; absent
when no branch at all is fresh. -/
def wildcardExpected (fs : FS) (now : Nat) (pre flagname lst0 lst1 : String) :
    Option (List String) :=
  if (fs.listdir lst0).any (childFresh fs now lst0 lst1) || globalFresh fs now lst0 lst1 then
    some (((fs.listdir lst0).map
        (branchContribution fs now pre flagname lst0 lst1)).flatten
      ++ globalContribution fs now pre lst0 lst1)
  else none

theorem branchContribution_of_not_fresh (fs : FS) (now : Nat)
    (pre flagname lst0 lst1 name : String)
    (h : childFresh fs now lst0 lst1 name = false) :
    branchContribution fs now pre flagname lst0 lst1 name = [] := by
  unfold childFresh at h
  unfold branchContribution
  cases hgf : fs.getFile (lst0 ++ name ++ lst1) with
  | none => rfl
  | some d =>
    rw [hgf] at h
    simp only [decide_eq_false_iff_not] at h
    simp [h]

theorem contrib_flatten_of_no_fresh (fs : FS) (now : Nat)
    (pre flagname lst0 lst1 : String) (names : List String)
    (h : names.any (childFresh fs now lst0 lst1) = false) :
    (names.map (branchContribution fs now pre flagname lst0 lst1)).flatten = [] := by
  induction names with
  | nil => rfl
  | cons name rest ihr =>
    simp only [List.any_cons, Bool.or_eq_false_iff] at h
    obtain ⟨h1, h2⟩ := h
    simp [branchContribution_of_not_fresh fs now pre flagname lst0 lst1 name h1, ihr h2]

/-- Result characterization of the wildcard loop when every enumerated child
path is wildcard-free: the loop never raises, and it returns the incoming
options unchanged when no child is fresh, otherwise the incoming options
(empty if absent) extended with the contributions of exactly the fresh
children in directory order, each annotated with its branch flag. -/
theorem gamLoopChar (fs : FS) (now m : Nat) (pre lst0 lst1 flagname : String) :
    ∀ (names : List String) (options : Option (List String)) (st : RCState),
      (∀ name ∈ names, (splitChar '*' (lst0 ++ name ++ lst1)).length ≤ 1) →
      ∃ st2, (names.foldlM (fun (acc : Option (List String) × RCState) name =>
          let st1 := { acc.2 with flags := flagname ++ name }
          let fpath1 := lst0 ++ name ++ lst1
          match fs.getFile fpath1 with
          | some d =>
            if now < d.mtime then
              getAllMatchesFromCache fs now (m + 1) st1 pre fpath1 acc.1
            else .ok (acc.1, st1)
          | none => .ok (acc.1, st1)) (options, st)) =
        .ok ((if names.any (childFresh fs now lst0 lst1) then
            some (options.getD [] ++ (names.map
              (branchContribution fs now pre flagname lst0 lst1)).flatten)
          else options), st2) := by
  intro names
  induction names with
  | nil =>
    intro options st hch
    exact ⟨st, rfl⟩
  | cons name rest ihr =>
    intro options st hch
    simp only [List.foldlM_cons]
    cases hgf : fs.getFile (lst0 ++ name ++ lst1) with
    | none =>
      obtain ⟨st2, hst2⟩ := ihr options { st with flags := flagname ++ name }
        (fun x hx => hch x (List.mem_cons_of_mem _ hx))
      refine ⟨st2, ?_⟩
      simp only [hgf, bind, Except.bind, hst2]
      have hcf : childFresh fs now lst0 lst1 name = false := by
        simp [childFresh, hgf]
      simp [List.any_cons, hcf, branchContribution_of_not_fresh fs now pre flagname
        lst0 lst1 name hcf]
    | some d =>
      by_cases hfr : now < d.mtime
      · have hne : lst0 ++ name ++ lst1 ≠ "" := FS.getFile_ne_empty hgf
        have hb := gam_base fs now m { st with flags := flagname ++ name } pre
          (lst0 ++ name ++ lst1) options (hch name (List.mem_cons_self _ _))
        simp only [if_neg hne, hgf, if_neg (show ¬ d.mtime ≤ now by omega)] at hb
        obtain ⟨st2, hst2⟩ := ihr
          (some (options.getD [] ++ matchItems pre d.content (flagname ++ name)))
          ⟨st.cacheHits + 1, st.cacheTries, ""⟩
          (fun x hx => hch x (List.mem_cons_of_mem _ hx))
        refine ⟨st2, ?_⟩
        simp only [hgf, if_pos hfr, bind, Except.bind, hb, hst2]
        have hcf : childFresh fs now lst0 lst1 name = true := by
          simp [childFresh, hgf, hfr]
        by_cases hra : rest.any (childFresh fs now lst0 lst1) = true
        · simp [List.any_cons, hcf, hra, branchContribution, hgf, if_pos hfr,
            List.append_assoc]
        · have hfrest := contrib_flatten_of_no_fresh fs now pre flagname lst0 lst1 rest
            (by simpa using hra)
          simp [List.any_cons, hcf, hra, branchContribution, hgf, if_pos hfr, hfrest]
      · obtain ⟨st2, hst2⟩ := ihr options { st with flags := flagname ++ name }
          (fun x hx => hch x (List.mem_cons_of_mem _ hx))
        refine ⟨st2, ?_⟩
        simp only [hgf, bind, Except.bind, if_neg hfr, hst2]
        have hcf : childFresh fs now lst0 lst1 name = false := by
          simp [childFresh, hgf, hfr]
        simp [List.any_cons, hcf, branchContribution_of_not_fresh fs now pre flagname
          lst0 lst1 name hcf]

/-- Characterization of a top-level wildcard read whose enumerated child
paths (and cross-link path) are wildcard-free: it returns exactly
`wildcardExpected` — the merge of the fresh child branches' annotated
contributions plus the `regions -> global` cross-link branch, absent when
no branch is fresh. -/
theorem gamWildcardChar (fs : FS) (now m n : Nat) (st : RCState)
    (pre fpath lst0 lst1 : String) (index : Nat) (fam kind flagname : String)
    (hn : n = m + 1)
    (h0 : (splitChar '*' fpath).headD "" = lst0)
    (h1 : ((splitChar '*' fpath).drop 1).headD "" = lst1)
    (hw : 1 < (splitChar '*' fpath).length)
    (hd : fs.isdir lst0 = true)
    (hidx : (splitChar '/' lst0).findIdx? (fun s => s == "completion_cache") = some index)
    (hfam : (splitChar '/' lst0)[index + 2]? = some fam)
    (hknd : (if 2 ≤ (splitChar '/' lst0).length then
        (splitChar '/' lst0)[(splitChar '/' lst0).length - 2]? else none) = some kind)
    (hfl : RESOURCE_FLAGS (fam ++ "." ++ kind) = some flagname)
    (hch : ∀ name ∈ fs.listdir lst0, (splitChar '*' (lst0 ++ name ++ lst1)).length ≤ 1)
    (hgl : (splitChar '*' (globalPath lst0 lst1)).length ≤ 1) :
    ∃ st2, getAllMatchesFromCache fs now (n + 1) st pre fpath none =
      .ok (wildcardExpected fs now pre flagname lst0 lst1, st2) := by
  simp only [getAllMatchesFromCache, hw, if_true, h0, h1]
  rw [if_neg (by simp [hd])]
  simp only [hidx, hfam, hknd, hfl]
  subst hn
  obtain ⟨st2, hloop⟩ := gamLoopChar fs now m pre lst0 lst1 flagname
    (fs.listdir lst0) none st hch
  rw [hloop]
  simp only []
  by_cases hreg : strEndsWith lst0 "regions/" = true
  · rw [if_pos hreg]
    cases hgf2 : fs.getFile (strDropRight lst0 ("regions/".length) ++ "global" ++ lst1) with
    | none =>
      refine ⟨st2, ?_⟩
      simp [wildcardExpected, globalFresh, globalContribution, globalPath, hreg, hgf2]
    | some d2 =>
      simp only []
      by_cases hfr2 : now < d2.mtime
      · rw [if_pos hfr2]
        have hne2 : strDropRight lst0 ("regions/".length) ++ "global" ++ lst1 ≠ "" := by
          have : globalPath lst0 lst1 ≠ "" := FS.getFile_ne_empty (by
            simpa [globalPath] using hgf2)
          simpa [globalPath] using this
        have hb := gam_base fs now m { st2 with flags := " --global" } pre
          (strDropRight lst0 ("regions/".length) ++ "global" ++ lst1)
          (if (fs.listdir lst0).any (childFresh fs now lst0 lst1) = true then
            some ((none : Option (List String)).getD [] ++ ((fs.listdir lst0).map
              (branchContribution fs now pre flagname lst0 lst1)).flatten)
          else none)
          (by simpa [globalPath] using hgl)
        simp only [if_neg hne2, hgf2, if_neg (show ¬ d2.mtime ≤ now by omega)] at hb
        rw [hb]
        have hglf : globalFresh fs now lst0 lst1 = true := by
          simp [globalFresh, globalPath, hreg, hgf2, hfr2]
        by_cases hany : (fs.listdir lst0).any (childFresh fs now lst0 lst1) = true
        · refine ⟨⟨st2.cacheHits + 1, st2.cacheTries, ""⟩, ?_⟩
          simp [wildcardExpected, globalContribution, globalPath, hany, hglf, hgf2]
        · have hfl0 := contrib_flatten_of_no_fresh fs now pre flagname lst0 lst1
            (fs.listdir lst0) (by simpa using hany)
          refine ⟨⟨st2.cacheHits + 1, st2.cacheTries, ""⟩, ?_⟩
          simp [wildcardExpected, globalContribution, globalPath, hany, hglf, hgf2, hfl0]
      · rw [if_neg hfr2]
        refine ⟨st2, ?_⟩
        have hglf : globalFresh fs now lst0 lst1 = false := by
          simp [globalFresh, globalPath, hreg, hgf2, hfr2]
        simp [wildcardExpected, globalContribution, hglf]
  · rw [if_neg hreg]
    refine ⟨st2, ?_⟩
    have hglf : globalFresh fs now lst0 lst1 = false := by
      simp [globalFresh, hreg]
    simp [wildcardExpected, globalContribution, hglf]

/-- C6 counterexample: a concrete wildcard read over a `regions/` head with
*no* child entries at all, but a fresh sibling `global` file.  The merge
over the (zero) fresh child branches would be absent, yet the source
returns the cross-link branch's name annotated ` --global` — so the result
is not the merge of exactly the fresh child branches. -/
theorem wildcard_read_cex :
    FS.listdir ⟨[("completion_cache/h/compute/global/_names_", ⟨"g", 400⟩)],
      [("completion_cache/h/compute/regions/", [])]⟩
      "completion_cache/h/compute/regions/" = [] ∧
    getFromCache ⟨[("completion_cache/h/compute/global/_names_", ⟨"g", 400⟩)],
      [("completion_cache/h/compute/regions/", [])]⟩ 100 3 "" ⟨0, 0, ""⟩
      "https://completion_cache/h/compute/regions/*/iname" "" =
      .ok (some ["g --global"], ⟨1, 1, ""⟩) :=
  ⟨rfl, rfl⟩

/-- C6 amended: a Read over a wildcard path (whose expanded child paths are
wildcard-free) returns the merge of the recursive results of exactly the
fresh child branches, each annotated with that branch's flag, plus — when
the wildcard head sits at a `regions` level — the sibling `global` branch
annotated ` --global`; stale or missing branches contribute nothing, and
the result is absent when no branch at all is fresh. -/
theorem wildcard_read_merges_fresh_branches (fs : FS) (now m n : Nat)
    (cacheDir link : String) (st : RCState) (pre lst0 lst1 : String)
    (index : Nat) (fam kind flagname : String)
    (hn : n = m + 1)
    (h0 : (splitChar '*' (joinPath cacheDir (CachePath link).1)).headD "" = lst0)
    (h1 : ((splitChar '*' (joinPath cacheDir (CachePath link).1)).drop 1).headD "" = lst1)
    (hw : 1 < (splitChar '*' (joinPath cacheDir (CachePath link).1)).length)
    (hd : fs.isdir lst0 = true)
    (hidx : (splitChar '/' lst0).findIdx? (fun s => s == "completion_cache") = some index)
    (hfam : (splitChar '/' lst0)[index + 2]? = some fam)
    (hknd : (if 2 ≤ (splitChar '/' lst0).length then
        (splitChar '/' lst0)[(splitChar '/' lst0).length - 2]? else none) = some kind)
    (hfl : RESOURCE_FLAGS (fam ++ "." ++ kind) = some flagname)
    (hch : ∀ name ∈ fs.listdir lst0, (splitChar '*' (lst0 ++ name ++ lst1)).length ≤ 1)
    (hgl : (splitChar '*' (globalPath lst0 lst1)).length ≤ 1) :
    ∃ st2, getFromCache fs now (n + 1) cacheDir st link pre =
      .ok (wildcardExpected fs now pre flagname lst0 lst1, st2) := by
  simp only [getFromCache]
  exact gamWildcardChar fs now m n { st with cacheTries := st.cacheTries + 1 } pre
    (joinPath cacheDir (CachePath link).1) lst0 lst1 index fam kind flagname hn
    h0 h1 hw hd hidx hfam hknd hfl hch hgl

/-- Witness for the amended C6 at concrete inputs: one fresh child branch,
one stale child branch, and a fresh `global` cross-link file. -/
theorem wildcard_read_merges_fresh_branches_witness :
    ∃ st2, getFromCache ⟨[("completion_cache/h/compute/regions/r1/_names_", ⟨"x", 400⟩),
        ("completion_cache/h/compute/regions/r2/_names_", ⟨"y", 50⟩),
        ("completion_cache/h/compute/global/_names_", ⟨"g", 400⟩)],
       [("completion_cache/h/compute/regions/", ["r1", "r2"])]⟩ 100 3 "" ⟨0, 0, ""⟩
      "https://completion_cache/h/compute/regions/*/iname" "" =
      .ok (wildcardExpected ⟨[("completion_cache/h/compute/regions/r1/_names_", ⟨"x", 400⟩),
          ("completion_cache/h/compute/regions/r2/_names_", ⟨"y", 50⟩),
          ("completion_cache/h/compute/global/_names_", ⟨"g", 400⟩)],
         [("completion_cache/h/compute/regions/", ["r1", "r2"])]⟩ 100 ""
        " --region " "completion_cache/h/compute/regions/" "/_names_", st2) :=
  wildcard_read_merges_fresh_branches
    ⟨[("completion_cache/h/compute/regions/r1/_names_", ⟨"x", 400⟩),
      ("completion_cache/h/compute/regions/r2/_names_", ⟨"y", 50⟩),
      ("completion_cache/h/compute/global/_names_", ⟨"g", 400⟩)],
     [("completion_cache/h/compute/regions/", ["r1", "r2"])]⟩ 100 1 2 ""
    "https://completion_cache/h/compute/regions/*/iname" ⟨0, 0, ""⟩ ""
    "completion_cache/h/compute/regions/" "/_names_" 0 "compute" "regions" " --region "
    (by rfl) (by rfl) (by rfl) (by decide) (by rfl) (by rfl) (by rfl) (by rfl) (by rfl)
    (by decide) (by decide)

theorem branchContribution_of_fresh (fs : FS) (now : Nat)
    (pre flagname lst0 lst1 name : String)
    (h : childFresh fs now lst0 lst1 name = true) :
    branchContribution fs now pre flagname lst0 lst1 name =
      (childMatched fs now pre lst0 lst1 name).map
        (fun item => item ++ (flagname ++ name)) := by
  unfold childFresh at h
  unfold branchContribution childMatched matchItems
  cases hgf : fs.getFile (lst0 ++ name ++ lst1) with
  | none => simp [hgf] at h
  | some d =>
    rw [hgf] at h
    simp only [decide_eq_true_eq] at h
    simp [h]

/-- The child part of a wildcard `freshFiles` traversal, when every child
path is wildcard-free, lists exactly the fresh children's file paths. -/
theorem freshFilesLoop_eq (fs : FS) (now m : Nat) (lst0 lst1 : String) :
    ∀ names : List String,
      (∀ name ∈ names, (splitChar '*' (lst0 ++ name ++ lst1)).length ≤ 1) →
      ((names.map (fun name =>
        match fs.getFile (lst0 ++ name ++ lst1) with
        | some d => if now < d.mtime then freshFiles fs now (m + 1) (lst0 ++ name ++ lst1)
            else []
        | none => [])).flatten) =
      (names.filter (childFresh fs now lst0 lst1)).map (fun name => lst0 ++ name ++ lst1) := by
  intro names
  induction names with
  | nil => intro hch; rfl
  | cons name rest ihr =>
    intro hch
    have hrest := ihr (fun x hx => hch x (List.mem_cons_of_mem _ hx))
    cases hgf : fs.getFile (lst0 ++ name ++ lst1) with
    | none =>
      have hcf : childFresh fs now lst0 lst1 name = false := by simp [childFresh, hgf]
      simp [hgf, hcf, hrest]
    | some d =>
      by_cases hfr : now < d.mtime
      · have hcf : childFresh fs now lst0 lst1 name = true := by
          simp [childFresh, hgf, hfr]
        have hne : lst0 ++ name ++ lst1 ≠ "" := FS.getFile_ne_empty hgf
        have hb := freshFiles_base fs now m (lst0 ++ name ++ lst1)
          (hch name (List.mem_cons_self _ _))
        simp only [if_neg hne, hgf, if_neg (show ¬ d.mtime ≤ now by omega)] at hb
        simp [hgf, hfr, hb, hcf, hrest]
      · have hcf : childFresh fs now lst0 lst1 name = false := by
          simp [childFresh, hgf, hfr]
        simp [hgf, hfr, hcf, hrest]

/-- On a wildcard path whose child and cross-link paths are wildcard-free,
`freshFiles` is the fresh children's paths plus, when the cross-link branch
is fresh, the `global` path. -/
theorem freshFiles_wildcard (fs : FS) (now m n : Nat) (fpath lst0 lst1 : String)
    (hn : n = m + 1)
    (h0 : (splitChar '*' fpath).headD "" = lst0)
    (h1 : ((splitChar '*' fpath).drop 1).headD "" = lst1)
    (hw : 1 < (splitChar '*' fpath).length)
    (hd : fs.isdir lst0 = true)
    (hch : ∀ name ∈ fs.listdir lst0, (splitChar '*' (lst0 ++ name ++ lst1)).length ≤ 1)
    (hgl : (splitChar '*' (globalPath lst0 lst1)).length ≤ 1) :
    freshFiles fs now (n + 1) fpath =
      ((fs.listdir lst0).filter (childFresh fs now lst0 lst1)).map
        (fun name => lst0 ++ name ++ lst1)
      ++ (if globalFresh fs now lst0 lst1 then [globalPath lst0 lst1] else []) := by
  simp only [freshFiles, hw, if_true, h0, h1]
  rw [if_neg (by simp [hd])]
  subst hn
  rw [freshFilesLoop_eq fs now m lst0 lst1 (fs.listdir lst0) hch]
  by_cases hreg : strEndsWith lst0 "regions/" = true
  · rw [if_pos hreg]
    cases hgf2 : fs.getFile (strDropRight lst0 ("regions/".length) ++ "global" ++ lst1) with
    | none =>
      have hglf : globalFresh fs now lst0 lst1 = false := by
        simp [globalFresh, globalPath, hreg, hgf2]
      simp [hgf2, hglf]
    | some d2 =>
      by_cases hfr2 : now < d2.mtime
      · have hglf : globalFresh fs now lst0 lst1 = true := by
          simp [globalFresh, globalPath, hreg, hgf2, hfr2]
        have hne2 : strDropRight lst0 ("regions/".length) ++ "global" ++ lst1 ≠ "" :=
          FS.getFile_ne_empty hgf2
        have hb := freshFiles_base fs now m (globalPath lst0 lst1) hgl
        simp only [globalPath] at hb
        rw [if_neg hne2] at hb
        simp only [hgf2, if_neg (show ¬ d2.mtime ≤ now by omega)] at hb
        simp [hgf2, hfr2, hb, hglf, globalPath]
      · have hglf : globalFresh fs now lst0 lst1 = false := by
          simp [globalFresh, globalPath, hreg, hgf2, hfr2]
        simp [hgf2, hfr2, hglf]
  · rw [if_neg hreg]
    have hglf : globalFresh fs now lst0 lst1 = false := by
      simp [globalFresh, hreg]
    simp [hglf]

/-- The merged contributions of the child branches are empty exactly when
the matching items of the fresh children are all empty. -/
theorem contrib_nil_iff (fs : FS) (now : Nat) (pre flagname lst0 lst1 : String) :
    ∀ names : List String,
      ((names.map (branchContribution fs now pre flagname lst0 lst1)).flatten = [] ↔
       (((names.filter (childFresh fs now lst0 lst1)).map
          (childMatched fs now pre lst0 lst1)).flatten = [])) := by
  intro names
  induction names with
  | nil => simp
  | cons name rest ihr =>
    cases hcf : childFresh fs now lst0 lst1 name with
    | false =>
      simp [branchContribution_of_not_fresh fs now pre flagname lst0 lst1 name hcf,
        hcf, ihr]
    | true =>
      simp only [List.map_cons, List.flatten_cons, List.filter_cons, hcf, if_true,
        branchContribution_of_fresh fs now pre flagname lst0 lst1 name hcf,
        List.append_eq_nil, List.map_eq_nil_iff]
      constructor
      · rintro ⟨ha, hb⟩
        exact ⟨ha, ihr.mp hb⟩
      · rintro ⟨ha, hb⟩
        exact ⟨ha, ihr.mpr hb⟩

/-- C4 amended: for a Read whose traversal introduces no nested wildcard
(the derived path holds at most one wildcard and, in the wildcard case,
every expanded child path and the cross-link path are wildcard-free), the
result is absent exactly when no fresh record is found along the path —
missing file, expired record, or missing directory — and is an empty
sequence exactly when at least one fresh record was parsed but no name
matched the prefix. -/
theorem read_absent_iff_no_fresh (fs : FS) (now m n : Nat) (cacheDir link : String)
    (st : RCState) (pre lst0 lst1 : String) (index : Nat)
    (fam kind flagname : String) (res : Option (List String)) (st' : RCState)
    (hn : n = m + 1) :
    ((splitChar '*' (joinPath cacheDir (CachePath link).1)).length ≤ 1 →
      getFromCache fs now (n + 1) cacheDir st link pre = .ok (res, st') →
      ((res = none ↔
          freshFiles fs now (n + 1) (joinPath cacheDir (CachePath link).1) = []) ∧
       (res = some [] ↔
          freshFiles fs now (n + 1) (joinPath cacheDir (CachePath link).1) ≠ [] ∧
          matchedFromFresh fs now (n + 1) pre (joinPath cacheDir (CachePath link).1) = []))) ∧
    ((splitChar '*' (joinPath cacheDir (CachePath link).1)).headD "" = lst0 →
      ((splitChar '*' (joinPath cacheDir (CachePath link).1)).drop 1).headD "" = lst1 →
      1 < (splitChar '*' (joinPath cacheDir (CachePath link).1)).length →
      fs.isdir lst0 = true →
      (splitChar '/' lst0).findIdx? (fun s => s == "completion_cache") = some index →
      (splitChar '/' lst0)[index + 2]? = some fam →
      (if 2 ≤ (splitChar '/' lst0).length then
          (splitChar '/' lst0)[(splitChar '/' lst0).length - 2]? else none) = some kind →
      RESOURCE_FLAGS (fam ++ "." ++ kind) = some flagname →
      (∀ name ∈ fs.listdir lst0, (splitChar '*' (lst0 ++ name ++ lst1)).length ≤ 1) →
      (splitChar '*' (globalPath lst0 lst1)).length ≤ 1 →
      getFromCache fs now (n + 1) cacheDir st link pre = .ok (res, st') →
      ((res = none ↔
          freshFiles fs now (n + 1) (joinPath cacheDir (CachePath link).1) = []) ∧
       (res = some [] ↔
          freshFiles fs now (n + 1) (joinPath cacheDir (CachePath link).1) ≠ [] ∧
          matchedFromFresh fs now (n + 1) pre (joinPath cacheDir (CachePath link).1) = []))) := by
  constructor
  · intro hb1 hread
    simp only [getFromCache] at hread
    rw [gam_base fs now n { st with cacheTries := st.cacheTries + 1 } pre
      (joinPath cacheDir (CachePath link).1) none hb1] at hread
    have hff := freshFiles_base fs now n (joinPath cacheDir (CachePath link).1) hb1
    by_cases he : joinPath cacheDir (CachePath link).1 = ""
    · rw [if_pos he] at hread
      simp only [Except.ok.injEq, Prod.mk.injEq] at hread
      obtain ⟨h1, _⟩ := hread
      subst h1
      have hffv : freshFiles fs now (n + 1) (joinPath cacheDir (CachePath link).1) = [] := by
        rw [hff, if_pos he]
      rw [hffv]
      simp
    · rw [if_neg he] at hread
      cases hgf : fs.getFile (joinPath cacheDir (CachePath link).1) with
      | none =>
        simp only [hgf] at hread
        simp only [Except.ok.injEq, Prod.mk.injEq] at hread
        obtain ⟨h1, _⟩ := hread
        subst h1
        have hffv : freshFiles fs now (n + 1) (joinPath cacheDir (CachePath link).1) = [] := by
          rw [hff, if_neg he]
          simp [hgf]
        rw [hffv]
        simp
      | some d =>
        simp only [hgf] at hread
        by_cases hstale : d.mtime ≤ now
        · rw [if_pos hstale] at hread
          simp only [Except.ok.injEq, Prod.mk.injEq] at hread
          obtain ⟨h1, _⟩ := hread
          subst h1
          have hffv : freshFiles fs now (n + 1) (joinPath cacheDir (CachePath link).1) = [] := by
            rw [hff, if_neg he]
            simp [hgf, hstale]
          rw [hffv]
          simp
        · rw [if_neg hstale] at hread
          simp only [Except.ok.injEq, Prod.mk.injEq] at hread
          obtain ⟨h1, _⟩ := hread
          subst h1
          have hffv : freshFiles fs now (n + 1) (joinPath cacheDir (CachePath link).1) =
              [joinPath cacheDir (CachePath link).1] := by
            rw [hff, if_neg he]
            simp [hgf, hstale]
          have hm : matchedFromFresh fs now (n + 1) pre (joinPath cacheDir (CachePath link).1) =
              (splitChar '\n' d.content).filter
                (fun item => pre == "" || strStartsWith item pre) := by
            unfold matchedFromFresh
            rw [hffv]
            simp [hgf]
          rw [hffv, hm]
          constructor
          · simp
          · simp only [Option.some.injEq]
            constructor
            · intro hnil
              refine ⟨by simp, ?_⟩
              have : matchItems pre d.content
                  ({ st with cacheTries := st.cacheTries + 1 } : RCState).flags = [] := by
                simpa using hnil.symm
              unfold matchItems at this
              exact List.map_eq_nil_iff.mp this
            · rintro ⟨-, hnil⟩
              have : matchItems pre d.content
                  ({ st with cacheTries := st.cacheTries + 1 } : RCState).flags = [] := by
                unfold matchItems
                rw [hnil]
                rfl
              rw [this]
              rfl
  · intro h0 h1 hw hd hidx hfam hknd hfl hch hgl hread
    simp only [getFromCache] at hread
    obtain ⟨st2, hchar⟩ := gamWildcardChar fs now m n
      { st with cacheTries := st.cacheTries + 1 } pre
      (joinPath cacheDir (CachePath link).1) lst0 lst1 index fam kind flagname hn
      h0 h1 hw hd hidx hfam hknd hfl hch hgl
    rw [hchar] at hread
    simp only [Except.ok.injEq, Prod.mk.injEq] at hread
    obtain ⟨hres, -⟩ := hread
    subst hres
    have hff := freshFiles_wildcard fs now m n (joinPath cacheDir (CachePath link).1)
      lst0 lst1 hn h0 h1 hw hd hch hgl
    have hmf : matchedFromFresh fs now (n + 1) pre (joinPath cacheDir (CachePath link).1) =
        (((fs.listdir lst0).filter (childFresh fs now lst0 lst1)).map
          (childMatched fs now pre lst0 lst1)).flatten
        ++ ((if globalFresh fs now lst0 lst1 then [globalPath lst0 lst1] else []).map
            (fun f => match fs.getFile f with
              | some d => (splitChar '\n' d.content).filter
                  (fun item => pre == "" || strStartsWith item pre)
              | none => [])).flatten := by
      unfold matchedFromFresh
      rw [hff]
      rw [List.map_append, List.flatten_append, List.map_map]
      rfl
    rw [hff, hmf]
    by_cases hany : (fs.listdir lst0).any (childFresh fs now lst0 lst1) = true
    · have hfilter : (fs.listdir lst0).filter (childFresh fs now lst0 lst1) ≠ [] := by
        obtain ⟨x, hx, hpx⟩ := List.any_eq_true.mp hany
        intro hnil
        have : x ∈ (fs.listdir lst0).filter (childFresh fs now lst0 lst1) :=
          List.mem_filter.mpr ⟨hx, hpx⟩
        rw [hnil] at this
        exact List.not_mem_nil x this
      have hwe : wildcardExpected fs now pre flagname lst0 lst1 =
          some (((fs.listdir lst0).map
            (branchContribution fs now pre flagname lst0 lst1)).flatten
            ++ globalContribution fs now pre lst0 lst1) := by
        unfold wildcardExpected
        rw [if_pos (by simp [hany])]
      rw [hwe]
      constructor
      · simp only [Option.some.injEq, reduceCtorEq, false_iff]
        intro hnil
        rcases List.append_eq_nil.mp hnil with ⟨ha, -⟩
        exact hfilter (List.map_eq_nil_iff.mp ha)
      · simp only [Option.some.injEq]
        constructor
        · intro hnil
          rcases List.append_eq_nil.mp hnil with ⟨ha, hb⟩
          refine ⟨by simp [List.append_eq_nil, List.map_eq_nil_iff, hfilter], ?_⟩
          rw [List.append_eq_nil]
          refine ⟨(contrib_nil_iff fs now pre flagname lst0 lst1 (fs.listdir lst0)).mp ha, ?_⟩
          by_cases hglf : globalFresh fs now lst0 lst1 = true
          · unfold globalContribution at hb
            rw [if_pos hglf] at hb
            cases hgp : fs.getFile (globalPath lst0 lst1) with
            | none => simp [hglf, hgp]
            | some d2 =>
              rw [hgp] at hb
              unfold matchItems at hb
              simp [hglf, hgp, List.map_eq_nil_iff.mp hb]
          · simp [hglf]
        · rintro ⟨-, hnil⟩
          rcases List.append_eq_nil.mp hnil with ⟨ha, hb⟩
          rw [List.append_eq_nil]
          refine ⟨(contrib_nil_iff fs now pre flagname lst0 lst1 (fs.listdir lst0)).mpr ha, ?_⟩
          by_cases hglf : globalFresh fs now lst0 lst1 = true
          · cases hgp : fs.getFile (globalPath lst0 lst1) with
            | none => simp [globalContribution, matchItems, hglf, hgp]
            | some d2 =>
              rw [if_pos hglf] at hb
              simp only [List.map_cons, List.map_nil, List.flatten_cons,
                List.flatten_nil, List.append_nil, hgp] at hb
              simp [globalContribution, matchItems, hglf, hgp, hb]
          · simp [globalContribution, hglf]
    · have hfilter : (fs.listdir lst0).filter (childFresh fs now lst0 lst1) = [] := by
        rw [List.filter_eq_nil_iff]
        intro x hx
        have := List.any_eq_false.mp (by simpa using hany)
        simpa using this x hx
      by_cases hglf : globalFresh fs now lst0 lst1 = true
      · have hwe : wildcardExpected fs now pre flagname lst0 lst1 =
            some (((fs.listdir lst0).map
              (branchContribution fs now pre flagname lst0 lst1)).flatten
              ++ globalContribution fs now pre lst0 lst1) := by
          unfold wildcardExpected
          rw [if_pos (by simp [hglf])]
        rw [hwe]
        have hcontrib := contrib_flatten_of_no_fresh fs now pre flagname lst0 lst1
          (fs.listdir lst0) (by simpa using hany)
        cases hgp : fs.getFile (globalPath lst0 lst1) with
        | none =>
          exact absurd hglf (by simp [globalFresh, hgp])
        | some d2 =>
          have hgc : globalContribution fs now pre lst0 lst1 =
              ((splitChar '\n' d2.content).filter
                (fun item => pre == "" || strStartsWith item pre)).map
                (fun item => item ++ " --global") := by
            unfold globalContribution matchItems
            rw [if_pos hglf, hgp]
          rw [hfilter, hcontrib, hgc, if_pos hglf]
          simp only [List.nil_append, List.map_nil, List.flatten_nil,
            List.map_cons, List.flatten_cons, List.append_nil, hgp]
          constructor
          · simp
          · simp only [Option.some.injEq]
            constructor
            · intro hnil
              exact ⟨by simp, List.map_eq_nil_iff.mp hnil⟩
            · rintro ⟨-, hnil⟩
              rw [hnil]
              rfl
      · have hwe : wildcardExpected fs now pre flagname lst0 lst1 = none := by
          unfold wildcardExpected
          rw [if_neg (by simp [hany, hglf])]
        rw [hwe, hfilter, if_neg hglf]
        simp

/-- C4 counterexample: a wildcard read over two child entries, one ordinary
and fresh (`n1`) and one whose *name contains a wildcard* (`a*b`) backed by
a fresh file.  The `n1` branch is parsed (a fresh record is found:
`CACHE_HITS` ends at 1 and `freshFiles` is non-empty), but the `a*b`
branch's recursive call re-enters the wildcard case, fails its directory
test, and returns `None`, overwriting the accumulated options — so the call
returns absent even though a fresh record was found along the path,
refuting the claimed equivalence. -/
theorem read_absent_iff_cex :
    getFromCache ⟨[("completion_cache/h/compute/zones/n1/_names_", ⟨"x", 400⟩),
        ("completion_cache/h/compute/zones/a*b/_names_", ⟨"y", 400⟩)],
       [("completion_cache/h/compute/zones/", ["n1", "a*b"])]⟩ 100 3 "" ⟨0, 0, ""⟩
      "https://completion_cache/h/compute/zones/*/iname" "" =
      .ok (none, ⟨1, 1, " --zone a*b"⟩) ∧
    freshFiles ⟨[("completion_cache/h/compute/zones/n1/_names_", ⟨"x", 400⟩),
        ("completion_cache/h/compute/zones/a*b/_names_", ⟨"y", 400⟩)],
       [("completion_cache/h/compute/zones/", ["n1", "a*b"])]⟩ 100 3
      (joinPath "" (CachePath "https://completion_cache/h/compute/zones/*/iname").1) =
      ["completion_cache/h/compute/zones/n1/_names_"] :=
  ⟨rfl, rfl⟩

/-- Witness for the amended C4 at concrete inputs: a fresh record whose
single name does not match the prefix `q` gives an empty — not absent —
result. -/
theorem read_absent_iff_no_fresh_witness :
    ((some [] : Option (List String)) = none ↔
        freshFiles ⟨[("ns/p/_names_", ⟨"aaa", 400⟩)], []⟩ 100 2
          (joinPath "" (CachePath "ns/p/leaf").1) = []) ∧
    ((some [] : Option (List String)) = some [] ↔
        freshFiles ⟨[("ns/p/_names_", ⟨"aaa", 400⟩)], []⟩ 100 2
          (joinPath "" (CachePath "ns/p/leaf").1) ≠ [] ∧
        matchedFromFresh ⟨[("ns/p/_names_", ⟨"aaa", 400⟩)], []⟩ 100 2 "q"
          (joinPath "" (CachePath "ns/p/leaf").1) = []) :=
  (read_absent_iff_no_fresh ⟨[("ns/p/_names_", ⟨"aaa", 400⟩)], []⟩ 100 0 1 ""
    "ns/p/leaf" ⟨0, 0, ""⟩ "q" "" "" 0 "" "" "" (some []) ⟨1, 1, ""⟩ rfl).1
    (by decide) (by rfl)
